import Mathlib

/-!
# A verification model of snarkVM's commit instruction, signing routine, and Poseidon setup

This file shallowly embeds three source files of the snarkVM repository:

* `vm/program/instruction/operation/commit.rs` — the `BHPCommitOperation`
  (native `evaluate` and circuit `execute`), and the `CommitInstruction`
  wrapper with its arity checks, parsing, printing and binary serialization;
* `console/account/src/signature/sign.rs` — `Signature::sign`;
* `circuits/core/src/algorithms/poseidon/mod.rs` — `Poseidon::new`.

Machinery external to those files (the BHP compression function itself, the
operand/register grammars, account key derivation, the group, the Poseidon
default-parameter provider, the sponge hash) is modelled from the repository
specification; every such definition carries a doc comment starting with
`Modelled from the spec:`.  Circuit wires are embedded by their assignments:
a circuit boolean is a `Bool`, a circuit field element a `Nat`, and the
circuit value types mirror the native ones constructor for constructor.
-/

namespace Snark

/-! ## Bit-level utilities -/

/-- Little-endian bit decomposition of a natural number at width `w`. -/
def natBitsLE (w n : Nat) : List Bool := (List.range w).map (fun i => n.testBit i)

/-- Recompose a little-endian bit string into a natural number. -/
def natOfBits : List Bool → Nat
  | [] => 0
  | b :: bs => (if b then 1 else 0) + 2 * natOfBits bs

/-- Modelled from the spec: identifiers ("member names") are external; their
little-endian bit encoding is modelled as the byte-wise little-endian bits of
the identifier string. -/
def identBitsLE (s : String) : List Bool := s.data.flatMap (fun c => natBitsLE 8 c.toNat)

/-! ## Decimal rendering (used by error messages and by `Display`) -/

/-- The ASCII digit character for `d < 10`. -/
def digitChar (d : Nat) : Char := Char.ofNat (48 + d)

/-- Little-endian decimal digits of `n`, with explicit fuel so that the
definition is structural and kernel-reducible. The empty list stands for 0. -/
def natToDecAux : Nat → Nat → List Char
  | 0, _ => []
  | fuel + 1, n => if n = 0 then [] else digitChar (n % 10) :: natToDecAux fuel (n / 10)

/-- The usual (big-endian) decimal digit string of `n`. -/
def natToDecChars (n : Nat) : List Char := if n = 0 then ['0'] else (natToDecAux n n).reverse

/-- Decimal rendering of a natural number as a `String`. -/
def natToDecStr (n : Nat) : String := String.mk (natToDecChars n)

/-! ## Native stack values

`StackValue` is the tagged union from the spec's data model: a plaintext
(literal or interface) or a record.  The literal type keeps a representative
set of variants; `variant` returns the type tag used by the preimage
encoding, and `toBitsLE` the little-endian value bits. -/

/-- Field elements of the console network are 253-bit values (external
constant of the network; the exact width is irrelevant to the claims). -/
def FIELD_SIZE_IN_BITS : Nat := 253

/-- Scalar field elements are 251-bit values (external network constant). -/
def SCALAR_SIZE_IN_BITS : Nat := 251

/-- A native literal: a typed scalar value. -/
inductive Literal where
  | boolean : Bool → Literal
  | field : Nat → Literal
  | u8 : Nat → Literal
  | scalar : Nat → Literal

/-- The type tag of a literal, as returned by `Literal::variant` (a `u8`). -/
def Literal.variant : Literal → Nat
  | .boolean _ => 1
  | .field _ => 2
  | .u8 _ => 9
  | .scalar _ => 14

/-- Modelled from the spec: the little-endian bit encoding of a literal's
value (`Literal::to_bits_le` is external to the embedded files). -/
def Literal.toBitsLE : Literal → List Bool
  | .boolean b => [b]
  | .field n => natBitsLE FIELD_SIZE_IN_BITS n
  | .u8 n => natBitsLE 8 n
  | .scalar n => natBitsLE SCALAR_SIZE_IN_BITS n

mutual

/-- A native plaintext: a literal, or an interface (structured record of
named members, in declared order). -/
inductive Plaintext where
  | literal : Literal → Plaintext
  | interface : Members → Plaintext

/-- The ordered member list of an interface: pairs of member name and value. -/
inductive Members where
  | nil : Members
  | cons : String → Plaintext → Members → Members

end

mutual

/-- Modelled from the spec: `Plaintext::to_bits_le` (external): a literal's
value bits, or the concatenated name/value bits of an interface's members. -/
def Plaintext.toBitsLE : Plaintext → List Bool
  | .literal l => l.toBitsLE
  | .interface m => Members.toBitsLE m

/-- The concatenation, member by member in declared order, of each member's
name bits followed by its value bits — the closure of the `flat_map` in
`BHPCommitOperation::evaluate`. -/
def Members.toBitsLE : Members → List Bool
  | .nil => []
  | .cons name v rest => identBitsLE name ++ Plaintext.toBitsLE v ++ Members.toBitsLE rest

end

/-- The member list as an ordinary Lean list. -/
def Members.toList : Members → List (String × Plaintext)
  | .nil => []
  | .cons n v r => (n, v) :: Members.toList r

/-- A native record: owner address, balance, and named data entries. -/
structure Record where
  owner : Nat
  balance : Nat
  data : Members

/-- A native stack value: plaintext or record. -/
inductive StackValue where
  | plaintext : Plaintext → StackValue
  | record : Record → StackValue

/-! ## Circuit values

The circuit types mirror the native ones constructor for constructor; each
leaf wire is embedded by its assignment. -/

/-- A circuit literal: the same shape as `Literal`, each leaf carrying the
assignment of its wires. -/
inductive CircLiteral where
  | boolean : Bool → CircLiteral
  | field : Nat → CircLiteral
  | u8 : Nat → CircLiteral
  | scalar : Nat → CircLiteral

/-- The type tag of a circuit literal (`circuit::Literal::variant`). -/
def CircLiteral.variant : CircLiteral → Nat
  | .boolean _ => 1
  | .field _ => 2
  | .u8 _ => 9
  | .scalar _ => 14

/-- Modelled from the spec: the circuit `to_bits_le` of a literal, embedded
by the assignments of the produced boolean wires. -/
def CircLiteral.toBitsLE : CircLiteral → List Bool
  | .boolean b => [b]
  | .field n => natBitsLE FIELD_SIZE_IN_BITS n
  | .u8 n => natBitsLE 8 n
  | .scalar n => natBitsLE SCALAR_SIZE_IN_BITS n

mutual

/-- A circuit plaintext, mirroring `Plaintext`. -/
inductive CircPlaintext where
  | literal : CircLiteral → CircPlaintext
  | interface : CircMembers → CircPlaintext

/-- The ordered member list of a circuit interface. -/
inductive CircMembers where
  | nil : CircMembers
  | cons : String → CircPlaintext → CircMembers → CircMembers

end

mutual

/-- Modelled from the spec: the circuit `Plaintext::to_bits_le`, embedded by
wire assignments. -/
def CircPlaintext.toBitsLE : CircPlaintext → List Bool
  | .literal l => l.toBitsLE
  | .interface m => CircMembers.toBitsLE m

/-- Member-wise name/value bits of a circuit interface — the closure of the
`flat_map` in `BHPCommitOperation::execute`. -/
def CircMembers.toBitsLE : CircMembers → List Bool
  | .nil => []
  | .cons name v rest => identBitsLE name ++ CircPlaintext.toBitsLE v ++ CircMembers.toBitsLE rest

end

/-- A circuit record. -/
structure CircRecord where
  owner : Nat
  balance : Nat
  data : CircMembers

/-- A circuit stack value, mirroring `StackValue`. -/
inductive CircuitValue where
  | plaintext : CircPlaintext → CircuitValue
  | record : CircRecord → CircuitValue

/-! ## Encoding native values into the circuit and decoding back

`encode*` is the injection of a native value into circuit wires; `decode*`
reads the assignment of a circuit value back as a native value. -/

/-- Inject a native literal into circuit wires. -/
def encodeLiteral : Literal → CircLiteral
  | .boolean b => .boolean b
  | .field n => .field n
  | .u8 n => .u8 n
  | .scalar n => .scalar n

/-- Read a circuit literal's assignment back as a native literal. -/
def decodeLiteral : CircLiteral → Literal
  | .boolean b => .boolean b
  | .field n => .field n
  | .u8 n => .u8 n
  | .scalar n => .scalar n

mutual

/-- Inject a native plaintext into circuit wires. -/
def encodePlaintext : Plaintext → CircPlaintext
  | .literal l => .literal (encodeLiteral l)
  | .interface m => .interface (encodeMembers m)

/-- Inject native interface members into circuit wires. -/
def encodeMembers : Members → CircMembers
  | .nil => .nil
  | .cons n v r => .cons n (encodePlaintext v) (encodeMembers r)

end

mutual

/-- Read a circuit plaintext's assignment back as a native plaintext. -/
def decodePlaintext : CircPlaintext → Plaintext
  | .literal l => .literal (decodeLiteral l)
  | .interface m => .interface (decodeMembers m)

/-- Read circuit interface members back as native members. -/
def decodeMembers : CircMembers → Members
  | .nil => .nil
  | .cons n v r => .cons n (decodePlaintext v) (decodeMembers r)

end

/-- Inject a native stack value into circuit wires. -/
def encodeValue : StackValue → CircuitValue
  | .plaintext p => .plaintext (encodePlaintext p)
  | .record r => .record ⟨r.owner, r.balance, encodeMembers r.data⟩

/-- Read a circuit value's assignment back as a native stack value. -/
def decodeValue : CircuitValue → StackValue
  | .plaintext p => .plaintext (decodePlaintext p)
  | .record r => .record ⟨r.owner, r.balance, decodeMembers r.data⟩

/-! ## The BHP commit operation -/

/-- Modelled from the spec: the external BHP collision-resistant commitment
function for chunk size `numBits` (`N::commit_bhpN` natively and
`A::commit_bhpN` over wires, which the spec requires to compute the same
function).  Its concrete value is irrelevant to every claim; only the fact
that both paths invoke one fixed function of the preimage bits, the
randomizer and the chunk size matters. -/
def bhpCommit (numBits : Nat) (preimage : List Bool) (randomizer : Nat) : Nat :=
  natOfBits preimage * 3 + randomizer * 5 + numBits * 7

/-- The preimage bit string assembled by `BHPCommitOperation::evaluate`:
literal → type-tag bits then value bits; interface → member-wise name bits
then value bits; record → owner bits, balance bits, then entry-wise
name/value bits. -/
def nativePreimage : StackValue → List Bool
  | .plaintext (.literal l) => natBitsLE 8 l.variant ++ l.toBitsLE
  | .plaintext (.interface m) => m.toBitsLE
  | .record r => natBitsLE FIELD_SIZE_IN_BITS r.owner ++ natBitsLE 64 r.balance ++ r.data.toBitsLE

/-- `BHPCommitOperation::evaluate`: assemble the preimage bits from the
input, require a scalar-literal randomizer, and commit with the variant
selected by `numBits`. -/
def BHPCommitOperation.evaluate (numBits : Nat) (input randomizer : StackValue) :
    Except String StackValue :=
  let preimage := nativePreimage input
  match randomizer with
  | .plaintext (.literal (.scalar rand)) =>
    match numBits with
    | 256 => .ok (.plaintext (.literal (.field (bhpCommit 256 preimage rand))))
    | 512 => .ok (.plaintext (.literal (.field (bhpCommit 512 preimage rand))))
    | 768 => .ok (.plaintext (.literal (.field (bhpCommit 768 preimage rand))))
    | 1024 => .ok (.plaintext (.literal (.field (bhpCommit 1024 preimage rand))))
    | _ => .error ("Invalid BHP commitment variant: BHP" ++ natToDecStr numBits)
  | _ => .error "Invalid randomizer type for BHP commit"

/-- The preimage wires assembled by `BHPCommitOperation::execute`, embedded
by their assignments; structurally parallel to `nativePreimage`. -/
def circuitPreimage : CircuitValue → List Bool
  | .plaintext (.literal l) => natBitsLE 8 l.variant ++ l.toBitsLE
  | .plaintext (.interface m) => m.toBitsLE
  | .record r => natBitsLE FIELD_SIZE_IN_BITS r.owner ++ natBitsLE 64 r.balance ++ r.data.toBitsLE

/-- `BHPCommitOperation::execute`: the circuit path, embedded by wire
assignments.  The circuit commit calls are infallible in the source; the
only error exits are the randomizer shape check and the variant dispatch. -/
def BHPCommitOperation.execute (numBits : Nat) (input randomizer : CircuitValue) :
    Except String CircuitValue :=
  let preimage := circuitPreimage input
  match randomizer with
  | .plaintext (.literal (.scalar rand)) =>
    match numBits with
    | 256 => .ok (.plaintext (.literal (.field (bhpCommit 256 preimage rand))))
    | 512 => .ok (.plaintext (.literal (.field (bhpCommit 512 preimage rand))))
    | 768 => .ok (.plaintext (.literal (.field (bhpCommit 768 preimage rand))))
    | 1024 => .ok (.plaintext (.literal (.field (bhpCommit 1024 preimage rand))))
    | _ => .error ("Invalid BHP commitment variant: BHP" ++ natToDecStr numBits)
  | _ => .error "Invalid randomizer type for BHP commit"

/-! ## Register types (static type tags) -/

/-- The static literal type tags. -/
inductive LiteralType where
  | boolean : LiteralType
  | field : LiteralType
  | u8 : LiteralType
  | scalar : LiteralType

/-- The static plaintext type tags. -/
inductive PlaintextType where
  | literal : LiteralType → PlaintextType
  | interface : PlaintextType

/-- The static register type tags. -/
inductive RegisterType where
  | plaintext : PlaintextType → RegisterType
  | record : RegisterType

/-- `BHPCommitOperation::output_type`: always Plaintext-Literal(Field). -/
def BHPCommitOperation.outputType : Except String RegisterType :=
  .ok (.plaintext (.literal .field))

/-! ## The commit instruction wrapper

Only the four chunk-size instantiations of `BHPCommitOperation` exist in the
source (`CommitBHP256` … `CommitBHP1024`), so the operation slot of an
instruction is a four-way enumeration. -/

/-- The four BHP variants that instantiate `CommitInstruction`. -/
inductive BHPVariant where
  | b256 : BHPVariant
  | b512 : BHPVariant
  | b768 : BHPVariant
  | b1024 : BHPVariant
deriving DecidableEq

/-- The `NUM_BITS` const generic of a variant. -/
def BHPVariant.numBits : BHPVariant → Nat
  | .b256 => 256
  | .b512 => 512
  | .b768 => 768
  | .b1024 => 1024

/-- The opcode string of a variant (`BHPCommitOperation::OPCODE`). -/
def BHPVariant.opcodeString : BHPVariant → String
  | .b256 => "commit.bhp256"
  | .b512 => "commit.bhp512"
  | .b768 => "commit.bhp768"
  | .b1024 => "commit.bhp1024"

/-- Modelled from the spec: a register, identified by a locator index (the
external `Register` grammar; the dotted member-path form is not needed by
any claim and is omitted). -/
inductive Register where
  | locator : Nat → Register
deriving DecidableEq

/-- Modelled from the spec: an operand — a register reference or an
immediate constant (modelled as a field-literal constant). -/
inductive Operand where
  | register : Register → Operand
  | literal : Nat → Operand
deriving DecidableEq

/-- The commit instruction: operands `(input, randomizer)` and a
destination register, wrapping one BHP variant. -/
structure CommitInstruction where
  variant : BHPVariant
  operands : List Operand
  destination : Register
deriving DecidableEq

/-- The register file of the current frame: native and circuit register
banks, modelled as association lists from locator to value. -/
structure Stack where
  regs : List (Nat × StackValue)
  cregs : List (Nat × CircuitValue)

/-- Modelled from the spec: `stack.load` — resolve an operand to a native
value: look a register up in the frame, or materialize a constant. -/
def Stack.load (st : Stack) : Operand → Except String StackValue
  | .register (.locator n) =>
    match st.regs.lookup n with
    | some v => .ok v
    | none => .error ("Register r" ++ natToDecStr n ++ " is not defined")
  | .literal n => .ok (.plaintext (.literal (.field n)))

/-- Modelled from the spec: `stack.load_circuit` — the circuit-bank load. -/
def Stack.loadCircuit (st : Stack) : Operand → Except String CircuitValue
  | .register (.locator n) =>
    match st.cregs.lookup n with
    | some v => .ok v
    | none => .error ("Register r" ++ natToDecStr n ++ " is not defined")
  | .literal n => .ok (.plaintext (.literal (.field n)))

/-- Modelled from the spec: `stack.store` — write a native value to the
destination register. -/
def Stack.store (st : Stack) : Register → StackValue → Stack
  | .locator n, v => { st with regs := (n, v) :: st.regs }

/-- Modelled from the spec: `stack.store_circuit`. -/
def Stack.storeCircuit (st : Stack) : Register → CircuitValue → Stack
  | .locator n, v => { st with cregs := (n, v) :: st.cregs }

/-- The arity error raised by `CommitInstruction::{evaluate, execute,
output_types}` (the source wraps the opcode in single quotation marks,
omitted here). -/
def operandArityError (i : CommitInstruction) : String :=
  "Instruction " ++ i.variant.opcodeString ++ " expects 2 operands, found "
    ++ natToDecStr i.operands.length ++ " operands"

/-- The arity error raised by `output_types` on a wrong input-type count. -/
def inputArityError (i : CommitInstruction) (inputTypes : List RegisterType) : String :=
  "Instruction " ++ i.variant.opcodeString ++ " expects 2 inputs, found "
    ++ natToDecStr inputTypes.length ++ " inputs"

/-- `CommitInstruction::evaluate`: check arity, load both operands (first
failure propagates), run the operation, store at the destination.  The
returned pair carries the final register file, so an error visibly leaves
the frame untouched. -/
def CommitInstruction.evaluate (i : CommitInstruction) (st : Stack) :
    Except String Unit × Stack :=
  match i.operands with
  | [o1, o2] =>
    match st.load o1 with
    | .error e => (.error e, st)
    | .ok input =>
      match st.load o2 with
      | .error e => (.error e, st)
      | .ok randomizer =>
        match BHPCommitOperation.evaluate i.variant.numBits input randomizer with
        | .error e => (.error e, st)
        | .ok commitment => (.ok (), st.store i.destination commitment)
  | _ => (.error (operandArityError i), st)

/-- `CommitInstruction::execute`: the identical control flow over the
circuit-valued load/store path. -/
def CommitInstruction.execute (i : CommitInstruction) (st : Stack) :
    Except String Unit × Stack :=
  match i.operands with
  | [o1, o2] =>
    match st.loadCircuit o1 with
    | .error e => (.error e, st)
    | .ok input =>
      match st.loadCircuit o2 with
      | .error e => (.error e, st)
      | .ok randomizer =>
        match BHPCommitOperation.execute i.variant.numBits input randomizer with
        | .error e => (.error e, st)
        | .ok commitment => (.ok (), st.storeCircuit i.destination commitment)
  | _ => (.error (operandArityError i), st)

/-- The program context handed to `output_types`; unused by the source
(`_program`), so modelled as a unit placeholder. -/
def Program := Unit

/-- `CommitInstruction::output_types`: check the input-type count, then the
operand count, then return the variant's fixed output type. -/
def CommitInstruction.outputTypes (i : CommitInstruction) (_program : Program)
    (inputTypes : List RegisterType) : Except String (List RegisterType) :=
  if inputTypes.length ≠ 2 then .error (inputArityError i inputTypes)
  else if i.operands.length ≠ 2 then .error (operandArityError i)
  else
    match BHPCommitOperation.outputType with
    | .ok t => .ok [t]
    | .error e => .error e

/-! ## Printing (`Display`) -/

/-- Modelled from the spec: the textual form of a register (`r` followed by
the decimal locator). -/
def Register.render : Register → List Char
  | .locator n => 'r' :: natToDecChars n

/-- Modelled from the spec: the textual form of an operand — a register, or
a field-literal constant written as its decimal value followed by `field`. -/
def Operand.render : Operand → List Char
  | .register r => r.render
  | .literal n => natToDecChars n ++ "field".data

/-- `Display for CommitInstruction`: fails when the stored operand count is
not 2, reporting the count (the source reports it on stderr and returns the
format error); otherwise prints `<opcode> <operand> <operand> into <dest>`,
with a trailing space after the opcode and after each operand. -/
def CommitInstruction.fmt (i : CommitInstruction) : Except String String :=
  match i.operands with
  | [o1, o2] =>
    .ok (String.mk (i.variant.opcodeString.data ++ ' ' :: o1.render ++ ' ' :: o2.render
      ++ ' ' :: "into ".data ++ i.destination.render))
  | _ =>
    .error ("The number of operands must be 2, found " ++ natToDecStr i.operands.length)

/-! ## Parsing

The combinators run over `List Char` with the remainder returned, matching
the nom-style source: match the opcode tag, whitespace, the first operand,
whitespace, the second operand, whitespace, the `into` tag, whitespace, the
destination register. -/

/-- Match an exact tag, returning the remainder. -/
def pTag : List Char → List Char → Option (List Char)
  | [], s => some s
  | _ :: _, [] => none
  | c :: cs, x :: xs => if x = c then pTag cs xs else none

/-- `Sanitizer::parse_whitespaces`: drop leading whitespace (zero or more). -/
def pWs : List Char → List Char
  | [] => []
  | c :: cs => if c.isWhitespace then pWs cs else c :: cs

/-- Whether a character is an ASCII decimal digit. -/
def isDigitCh (c : Char) : Bool := 48 ≤ c.toNat && c.toNat ≤ 57

/-- The value of a digit character. -/
def digitVal (c : Char) : Nat := c.toNat - 48

/-- Fold a big-endian digit string into a natural number. -/
def digitsToNat (ds : List Char) : Nat := ds.foldl (fun a c => 10 * a + digitVal c) 0

/-- Parse one or more decimal digits. -/
def pDigits (s : List Char) : Option (Nat × List Char) :=
  match s.takeWhile isDigitCh with
  | [] => none
  | ds => some (digitsToNat ds, s.dropWhile isDigitCh)

/-- Modelled from the spec: `Register::parse` — `r` followed by a decimal
locator. -/
def pRegister (s : List Char) : Option (Register × List Char) :=
  match s with
  | c :: rest =>
    if c = 'r' then (pDigits rest).map (fun p => (.locator p.1, p.2)) else none
  | [] => none

/-- Modelled from the spec: `Operand::parse` — a register reference, or a
field-literal constant. -/
def pOperand (s : List Char) : Option (Operand × List Char) :=
  match pRegister s with
  | some (r, rest) => some (.register r, rest)
  | none =>
    (pDigits s).bind (fun p =>
      (pTag "field".data p.2).map (fun rest2 => (.literal p.1, rest2)))

/-- `CommitInstruction::parse`: opcode tag, whitespace, two operands, the
`into` tag, and the destination register, returning the remainder. -/
def CommitInstruction.parse (v : BHPVariant) (s : List Char) :
    Option (CommitInstruction × List Char) :=
  (pTag v.opcodeString.data s).bind (fun s1 =>
  (pOperand (pWs s1)).bind (fun p1 =>
  (pOperand (pWs p1.2)).bind (fun p2 =>
  (pTag "into".data (pWs p2.2)).bind (fun s4 =>
  (pRegister (pWs s4)).map (fun pd => (⟨v, [p1.1, p2.1], pd.1⟩, pd.2))))))

/-- `FromStr for CommitInstruction`: parse and require an empty remainder. -/
def CommitInstruction.fromStr (v : BHPVariant) (s : String) :
    Except String CommitInstruction :=
  match CommitInstruction.parse v s.data with
  | some (i, []) => .ok i
  | some (_, rem) =>
    .error ("Failed to parse string. Found invalid character in: \"" ++ String.mk rem ++ "\"")
  | none => .error "Failed to parse string."

/-! ## Binary serialization -/

/-- Little-endian byte decomposition of `n` at width `k`. -/
def leBytes : Nat → Nat → List Nat
  | 0, _ => []
  | k + 1, n => (n % 256) :: leBytes k (n / 256)

/-- Read `k` little-endian bytes off the front of a stream. -/
def readLeNat : Nat → List Nat → Option (Nat × List Nat)
  | 0, s => some (0, s)
  | _ + 1, [] => none
  | k + 1, b :: s => (readLeNat k s).map (fun p => (b + 256 * p.1, p.2))

/-- Modelled from the spec: `Register::write_le` — the locator as a
fixed-width eight-byte (u64) little-endian field. -/
def Register.writeLE : Register → List Nat
  | .locator n => leBytes 8 n

/-- Modelled from the spec: `Register::read_le`. -/
def Register.readLE (s : List Nat) : Option (Register × List Nat) :=
  (readLeNat 8 s).map (fun p => (.locator p.1, p.2))

/-- Modelled from the spec: `Operand::write_le` — a variant byte, then the
register encoding or a 32-byte little-endian constant. -/
def Operand.writeLE : Operand → List Nat
  | .register r => 0 :: r.writeLE
  | .literal n => 1 :: leBytes 32 n

/-- Modelled from the spec: `Operand::read_le`. -/
def Operand.readLE (s : List Nat) : Option (Operand × List Nat) :=
  match s with
  | 0 :: rest => (Register.readLE rest).map (fun p => (.register p.1, p.2))
  | 1 :: rest => (readLeNat 32 rest).map (fun p => (.literal p.1, p.2))
  | _ => none

/-- `ToBytes for CommitInstruction`: require exactly two operands (reporting
the count otherwise), then write operand, operand, destination. -/
def CommitInstruction.writeLE (i : CommitInstruction) : Except String (List Nat) :=
  match i.operands with
  | [o1, o2] => .ok (o1.writeLE ++ o2.writeLE ++ i.destination.writeLE)
  | _ =>
    .error ("The number of operands must be 2, found " ++ natToDecStr i.operands.length)

/-- `FromBytes for CommitInstruction`: read exactly two operands, then the
destination register. -/
def CommitInstruction.readLE (v : BHPVariant) (s : List Nat) :
    Option (CommitInstruction × List Nat) :=
  (Operand.readLE s).bind (fun p1 =>
  (Operand.readLE p1.2).bind (fun p2 =>
  (Register.readLE p2.2).map (fun pd => (⟨v, [p1.1, p2.1], pd.1⟩, pd.2))))

/-! ## The account signing routine (`Signature::sign`)

The group, key derivation, address derivation and the rate-8 sponge are
external to `sign.rs`; they enter as components of a `Network` model.  The
caller's RNG is embedded as an entropy stream (`List Nat`): sampling takes
the head, and the routine returns the remaining stream, so whether
randomness was drawn is visible in the result. -/

/-- A group element; only its x-coordinate is consumed by `sign`. -/
structure Point where
  x : Nat
  y : Nat
deriving DecidableEq

/-- The compute key: the two signature-verification components. -/
structure ComputeKey where
  pk_sig : Point
  pr_sig : Point
deriving DecidableEq

/-- A private key; `sign` reads only its signing scalar `sk_sig`. -/
structure PrivateKey where
  sk_sig : Nat
deriving DecidableEq

/-- The signature triple. -/
structure Signature where
  challenge : Nat
  response : Nat
  compute_key : ComputeKey
deriving DecidableEq

/-- Modelled from the spec: the external network interface that `sign`
consumes — the message size bound, the scalar field modulus, the group
scalar multiplication by the generator, compute-key and address derivation,
and the rate-8 sponge's hash-to-scalar entry point. -/
structure Network where
  maxDataSizeInFields : Nat
  scalarModulus : Nat
  gScalarMultiply : Nat → Point
  computeKeyFromPrivate : PrivateKey → Except String ComputeKey
  addressFromComputeKey : ComputeKey → Except String Point
  hashToScalarPsd8 : List Nat → Except String Nat

/-- Modelled from the spec: `Scalar::rand` — draw the head of the entropy
stream, reduced into the scalar field. -/
def randScalar (net : Network) : List Nat → Nat × List Nat
  | [] => (0, [])
  | x :: rest => (x % net.scalarModulus, rest)

/-- Subtraction in the scalar field, with the wrap-around explicit. -/
def scalarSub (net : Network) (a b : Nat) : Nat :=
  (a + net.scalarModulus - b % net.scalarModulus) % net.scalarModulus

/-- `Signature::sign`: reject oversized messages before touching the RNG;
sample the nonce; derive the compute key and address; hash the x-coordinates
of `(nonce * G, pk_sig, pr_sig, address)` followed by the message into the
challenge; blind the signing scalar into the response. -/
def Signature.sign (net : Network) (privateKey : PrivateKey) (message : List Nat)
    (rng : List Nat) : Except String Signature × List Nat :=
  if message.length > net.maxDataSizeInFields then
    (.error "Cannot sign the message: the message exceeds maximum allowed size", rng)
  else
    let (nonce, rng1) := randScalar net rng
    let g_r := net.gScalarMultiply nonce
    match net.computeKeyFromPrivate privateKey with
    | .error e => (.error e, rng1)
    | .ok computeKey =>
      match net.addressFromComputeKey computeKey with
      | .error e => (.error e, rng1)
      | .ok address =>
        let preimage :=
          [g_r.x, computeKey.pk_sig.x, computeKey.pr_sig.x, address.x] ++ message
        match net.hashToScalarPsd8 preimage with
        | .error e => (.error e, rng1)
        | .ok challenge =>
          let response := scalarSub net nonce (challenge * privateKey.sk_sig)
          (.ok ⟨challenge, response, computeKey⟩, rng1)

/-! ## Poseidon initialization (`Poseidon::new`) -/

/-- Modelled from the spec: a default Poseidon parameter set as supplied by
the external provider (`default_poseidon_parameters`), with field elements
as naturals. -/
structure PoseidonParameters where
  full_rounds : Nat
  partial_rounds : Nat
  alpha : Nat
  ark : List (List Nat)
  mds : List (List Nat)

/-- The constructed sponge state of `Poseidon<E, RATE>`. -/
structure PoseidonSponge where
  full_rounds : Nat
  partial_rounds : Nat
  alpha : Nat
  ark : List (List Nat)
  mds : List (List Nat)

/-- `Poseidon::new`: if a default parameter set exists, truncate its round
constants to `(full_rounds + partial_rounds) × (RATE + 1)` and its mixing
matrix to `(RATE + 1) × (RATE + 1)`; otherwise the source halts the process
(embedded as `none`). -/
def Poseidon.new (RATE : Nat) : Option PoseidonParameters → Option PoseidonSponge
  | some p =>
    some
      { full_rounds := p.full_rounds
        partial_rounds := p.partial_rounds
        alpha := p.alpha
        ark := (p.ark.take (p.full_rounds + p.partial_rounds)).map (fun row => row.take (RATE + 1))
        mds := (p.mds.take (RATE + 1)).map (fun row => row.take (RATE + 1)) }
  | none => none

/-! ## Spec-side formulations and auxiliary predicates -/

/-- The spec's wording of the interface preimage: "for each member in
declared order, the little-endian bits of the member's name followed by the
little-endian bits of its value, all members concatenated in sequence". -/
def specMemberBits (l : List (String × Plaintext)) : List Bool :=
  l.flatMap (fun nv => identBitsLE nv.1 ++ nv.2.toBitsLE)

/-- Whether a native value is a scalar-typed literal (the randomizer shape
accepted by the commit operation). -/
def StackValue.isScalarLiteral : StackValue → Bool
  | .plaintext (.literal (.scalar _)) => true
  | _ => false

/-- Whether a circuit value is a scalar-typed literal. -/
def CircuitValue.isScalarLiteral : CircuitValue → Bool
  | .plaintext (.literal (.scalar _)) => true
  | _ => false

/-- A register whose locator fits the `u64` of the real register type. -/
def Register.valid : Register → Prop
  | .locator n => n < 2 ^ 64

/-- An operand whose payload fits its fixed binary encoding (a `u64`
locator, or a field constant below the 32-byte bound). -/
def Operand.valid : Operand → Prop
  | .register r => r.valid
  | .literal n => n < 2 ^ 256

/-- The little-endian value of a digit-character list. -/
def valLE : List Char → Nat
  | [] => 0
  | c :: cs => digitVal c + 10 * valLE cs

/-- The head of the character list, if any, is not whitespace. -/
def headNotWs : List Char → Prop
  | [] => True
  | c :: _ => c.isWhitespace = false

/-- The head of the character list, if any, is not a decimal digit. -/
def headNotDigit : List Char → Prop
  | [] => True
  | c :: _ => isDigitCh c = false

/-- A concrete network model used to exercise the signing routine. -/
def sampleNetwork : Network where
  maxDataSizeInFields := 2
  scalarModulus := 97
  gScalarMultiply := fun n => ⟨n + 1, n + 2⟩
  computeKeyFromPrivate := fun pk => .ok ⟨⟨pk.sk_sig + 3, 0⟩, ⟨pk.sk_sig + 4, 0⟩⟩
  addressFromComputeKey := fun ck => .ok ⟨ck.pk_sig.x + ck.pr_sig.x, 0⟩
  hashToScalarPsd8 := fun l => .ok (l.foldl (fun a b => a + b) 0 % 97)

/-! ## Structural correspondence of the two value encodings -/

/-- Encoding a literal into circuit wires preserves the type tag. -/
theorem variant_encodeLiteral (l : Literal) : (encodeLiteral l).variant = l.variant := by
  cases l <;> rfl

/-- Encoding a literal into circuit wires preserves the value bits. -/
theorem toBitsLE_encodeLiteral (l : Literal) : (encodeLiteral l).toBitsLE = l.toBitsLE := by
  cases l <;> rfl

mutual

/-- Encoding a plaintext into circuit wires preserves its bit string. -/
theorem toBitsLE_encodePlaintext : ∀ (p : Plaintext), (encodePlaintext p).toBitsLE = p.toBitsLE
  | .literal l => by
    simp [encodePlaintext, Plaintext.toBitsLE, CircPlaintext.toBitsLE, toBitsLE_encodeLiteral]
  | .interface m => by
    simp [encodePlaintext, Plaintext.toBitsLE, CircPlaintext.toBitsLE, toBitsLE_encodeMembers m]

/-- Encoding interface members into circuit wires preserves their bits. -/
theorem toBitsLE_encodeMembers : ∀ (m : Members), (encodeMembers m).toBitsLE = m.toBitsLE
  | .nil => rfl
  | .cons n v r => by
    simp [encodeMembers, Members.toBitsLE, CircMembers.toBitsLE, toBitsLE_encodePlaintext v,
      toBitsLE_encodeMembers r]

end

/-- The preimage wires assembled on the circuit path over the encoding of a
native value carry exactly the native preimage bits. -/
theorem circuitPreimage_encode (input : StackValue) :
    circuitPreimage (encodeValue input) = nativePreimage input := by
  cases input with
  | plaintext p =>
    cases p with
    | literal l =>
      simp [circuitPreimage, nativePreimage, encodeValue, encodePlaintext,
        variant_encodeLiteral, toBitsLE_encodeLiteral]
    | interface m =>
      simp [circuitPreimage, nativePreimage, encodeValue, encodePlaintext,
        toBitsLE_encodeMembers m]
  | record r =>
    simp [circuitPreimage, nativePreimage, encodeValue, toBitsLE_encodeMembers r.data]

set_option maxRecDepth 4000 in
/-- C1: for every input value shape and every scalar-literal randomizer, the
circuit execution over the encoded pair decodes to exactly the native
evaluation result, for each of the four chunk-size variants. -/
theorem execute_refines_evaluate (v : BHPVariant) (input : StackValue) (r : Nat) :
    Except.map decodeValue
      (BHPCommitOperation.execute v.numBits (encodeValue input)
        (encodeValue (.plaintext (.literal (.scalar r)))))
      = BHPCommitOperation.evaluate v.numBits input (.plaintext (.literal (.scalar r))) := by
  have hpre := circuitPreimage_encode input
  have hrand : encodeValue (.plaintext (.literal (.scalar r)))
      = CircuitValue.plaintext (.literal (.scalar r)) := rfl
  cases v <;>
    simp [BHPCommitOperation.execute, BHPCommitOperation.evaluate, BHPVariant.numBits,
      hrand, hpre, Except.map, decodeValue, decodePlaintext, decodeLiteral]

/-! ## Preimage encoding (C6) -/

/-- The member-wise bit assembly coincides with the spec's list-level
formulation over the member list. -/
theorem members_bits_spec : ∀ (m : Members), m.toBitsLE = specMemberBits m.toList
  | .nil => rfl
  | .cons n v r => by
    simp [Members.toBitsLE, Members.toList, specMemberBits, members_bits_spec r]

/-- C6: the preimage of a literal input is its type-tag bits followed by its
value bits, and the preimage of an interface input is, member by member in
declared order, name bits followed by value bits — on the native path and on
the circuit path alike. -/
theorem preimage_assembly (v : BHPVariant) (l : Literal) (m : Members) (r : Nat) :
    BHPCommitOperation.evaluate v.numBits (.plaintext (.literal l))
        (.plaintext (.literal (.scalar r)))
      = .ok (.plaintext (.literal (.field
          (bhpCommit v.numBits (natBitsLE 8 l.variant ++ l.toBitsLE) r))))
  ∧ BHPCommitOperation.evaluate v.numBits (.plaintext (.interface m))
        (.plaintext (.literal (.scalar r)))
      = .ok (.plaintext (.literal (.field
          (bhpCommit v.numBits (specMemberBits m.toList) r))))
  ∧ BHPCommitOperation.execute v.numBits (encodeValue (.plaintext (.literal l)))
        (.plaintext (.literal (.scalar r)))
      = .ok (.plaintext (.literal (.field
          (bhpCommit v.numBits (natBitsLE 8 l.variant ++ l.toBitsLE) r))))
  ∧ BHPCommitOperation.execute v.numBits (encodeValue (.plaintext (.interface m)))
        (.plaintext (.literal (.scalar r)))
      = .ok (.plaintext (.literal (.field
          (bhpCommit v.numBits (specMemberBits m.toList) r)))) := by
  refine ⟨?_, ?_, ?_, ?_⟩ <;> cases v <;>
    simp [BHPCommitOperation.evaluate, BHPCommitOperation.execute, BHPVariant.numBits,
      nativePreimage, circuitPreimage, encodeValue, encodePlaintext, variant_encodeLiteral,
      toBitsLE_encodeLiteral, toBitsLE_encodeMembers, members_bits_spec]

/-! ## Output-type invariance (C7) -/

/-- A successful native evaluation always produces a field-typed literal. -/
theorem evaluate_ok_shape (numBits : Nat) (input randomizer out : StackValue)
    (h : BHPCommitOperation.evaluate numBits input randomizer = .ok out) :
    ∃ f, out = .plaintext (.literal (.field f)) := by
  unfold BHPCommitOperation.evaluate at h
  split at h
  · split at h
    · exact ⟨_, (Except.ok.inj h).symm⟩
    · exact ⟨_, (Except.ok.inj h).symm⟩
    · exact ⟨_, (Except.ok.inj h).symm⟩
    · exact ⟨_, (Except.ok.inj h).symm⟩
    · exact Except.noConfusion h
  · exact Except.noConfusion h

/-- A successful circuit execution always produces a field-typed literal. -/
theorem execute_ok_shape (numBits : Nat) (input randomizer out : CircuitValue)
    (h : BHPCommitOperation.execute numBits input randomizer = .ok out) :
    ∃ f, out = .plaintext (.literal (.field f)) := by
  unfold BHPCommitOperation.execute at h
  split at h
  · split at h
    · exact ⟨_, (Except.ok.inj h).symm⟩
    · exact ⟨_, (Except.ok.inj h).symm⟩
    · exact ⟨_, (Except.ok.inj h).symm⟩
    · exact ⟨_, (Except.ok.inj h).symm⟩
    · exact Except.noConfusion h
  · exact Except.noConfusion h

/-- C7: `output_type` is the constant Plaintext-Literal(Field), independent
of any runtime value, and every successful evaluate/execute returns a single
field-typed literal. -/
theorem output_always_field (v : BHPVariant) (input randomizer : StackValue)
    (cin crand : CircuitValue) :
    BHPCommitOperation.outputType = .ok (RegisterType.plaintext (.literal .field))
  ∧ (∀ out, BHPCommitOperation.evaluate v.numBits input randomizer = .ok out →
      ∃ f, out = .plaintext (.literal (.field f)))
  ∧ (∀ cout, BHPCommitOperation.execute v.numBits cin crand = .ok cout →
      ∃ f, cout = .plaintext (.literal (.field f))) :=
  ⟨rfl, fun _ h => evaluate_ok_shape _ _ _ _ h, fun _ h => execute_ok_shape _ _ _ _ h⟩

/-- Witness for C7: the second conjunct applied to a concrete evaluation. -/
theorem output_always_field_witness :
    ∃ f, StackValue.plaintext (.literal (.field
        (bhpCommit 256 (nativePreimage (.plaintext (.literal (.boolean true)))) 2)))
      = StackValue.plaintext (.literal (.field f)) :=
  (output_always_field .b256 (.plaintext (.literal (.boolean true)))
    (.plaintext (.literal (.scalar 2))) (.plaintext (.literal (.boolean true)))
    (.plaintext (.literal (.scalar 2)))).2.1 _ rfl

/-! ## The randomizer shape check (C5) -/

/-- The claim quotes the error as "invalid randomizer type for commit"; the
source raises "Invalid randomizer type for BHP commit", so the claim as
stated fails at a boolean randomizer. -/
theorem invalid_randomizer_message_counterexample :
    BHPCommitOperation.evaluate 256 (.plaintext (.literal (.boolean true)))
        (.plaintext (.literal (.boolean false)))
      ≠ .error "invalid randomizer type for commit" := by
  intro h
  have hmsg : BHPCommitOperation.evaluate 256 (.plaintext (.literal (.boolean true)))
      (.plaintext (.literal (.boolean false)))
      = .error "Invalid randomizer type for BHP commit" := rfl
  rw [hmsg] at h
  exact absurd (Except.error.inj h) (by decide)

/-- A non-scalar randomizer makes the native path fail, regardless of the
chunk size and of the input. -/
theorem evaluate_nonscalar (numBits : Nat) (input randomizer : StackValue)
    (hr : randomizer.isScalarLiteral = false) :
    BHPCommitOperation.evaluate numBits input randomizer
      = .error "Invalid randomizer type for BHP commit" := by
  rcases randomizer with p | rec
  · rcases p with l | m
    · rcases l with b | f | u | s
      · rfl
      · rfl
      · rfl
      · simp [StackValue.isScalarLiteral] at hr
    · rfl
  · rfl

/-- A non-scalar randomizer makes the circuit path fail identically. -/
theorem execute_nonscalar (numBits : Nat) (input randomizer : CircuitValue)
    (hr : randomizer.isScalarLiteral = false) :
    BHPCommitOperation.execute numBits input randomizer
      = .error "Invalid randomizer type for BHP commit" := by
  rcases randomizer with p | rec
  · rcases p with l | m
    · rcases l with b | f | u | s
      · rfl
      · rfl
      · rfl
      · simp [CircuitValue.isScalarLiteral] at hr
    · rfl
  · rfl

/-- C5 (amended): a non-scalar randomizer fails on both paths with the error
"Invalid randomizer type for BHP commit", and an instruction-level evaluate
that fails this way leaves the register file unchanged. -/
theorem invalid_randomizer_rejected (v : BHPVariant) (input randomizer : StackValue)
    (cin crand : CircuitValue) (hr : randomizer.isScalarLiteral = false)
    (hcr : crand.isScalarLiteral = false) :
    BHPCommitOperation.evaluate v.numBits input randomizer
      = .error "Invalid randomizer type for BHP commit"
  ∧ BHPCommitOperation.execute v.numBits cin crand
      = .error "Invalid randomizer type for BHP commit"
  ∧ (∀ (i : CommitInstruction) (st : Stack) (o1 o2 : Operand) (inp : StackValue),
      i.operands = [o1, o2] → st.load o1 = .ok inp → st.load o2 = .ok randomizer →
      i.evaluate st = (.error "Invalid randomizer type for BHP commit", st)) := by
  refine ⟨evaluate_nonscalar _ _ _ hr, execute_nonscalar _ _ _ hcr, ?_⟩
  intro i st o1 o2 inp hops hl1 hl2
  obtain ⟨vv, ops, d⟩ := i
  have hops2 : ops = [o1, o2] := hops
  subst hops2
  simp [CommitInstruction.evaluate, hl1, hl2,
    evaluate_nonscalar vv.numBits inp randomizer hr]

/-- Witness for C5 (amended): a boolean randomizer at chunk size 256. -/
theorem invalid_randomizer_rejected_witness :
    BHPCommitOperation.evaluate BHPVariant.b256.numBits
        (.plaintext (.literal (.boolean true))) (.plaintext (.literal (.boolean false)))
      = .error "Invalid randomizer type for BHP commit"
  ∧ BHPCommitOperation.execute BHPVariant.b256.numBits
        (.plaintext (.literal (.boolean true))) (.plaintext (.literal (.boolean false)))
      = .error "Invalid randomizer type for BHP commit"
  ∧ (∀ (i : CommitInstruction) (st : Stack) (o1 o2 : Operand) (inp : StackValue),
      i.operands = [o1, o2] → st.load o1 = .ok inp →
      st.load o2 = .ok (.plaintext (.literal (.boolean false))) →
      i.evaluate st = (.error "Invalid randomizer type for BHP commit", st)) :=
  invalid_randomizer_rejected .b256 (.plaintext (.literal (.boolean true)))
    (.plaintext (.literal (.boolean false))) (.plaintext (.literal (.boolean true)))
    (.plaintext (.literal (.boolean false))) rfl rfl

/-! ## Arity enforcement (C4) -/

/-- C4: with any operand count other than 2, evaluate, execute,
output-typing, binary serialization and printing all fail, reporting the
operand count (output-typing reports the input-type count first when that
is also wrong), and the register file is left untouched. -/
theorem arity_violation_fails (i : CommitInstruction) (st : Stack) (pg : Program)
    (its : List RegisterType) (h : i.operands.length ≠ 2) :
    i.evaluate st = (.error (operandArityError i), st)
  ∧ i.execute st = (.error (operandArityError i), st)
  ∧ (∃ e, i.outputTypes pg its = .error e)
  ∧ (its.length = 2 → i.outputTypes pg its = .error (operandArityError i))
  ∧ i.writeLE = .error ("The number of operands must be 2, found "
      ++ natToDecStr i.operands.length)
  ∧ i.fmt = .error ("The number of operands must be 2, found "
      ++ natToDecStr i.operands.length) := by
  obtain ⟨vv, ops, d⟩ := i
  have hout1 : ∃ e, CommitInstruction.outputTypes ⟨vv, ops, d⟩ pg its = .error e := by
    unfold CommitInstruction.outputTypes
    by_cases hits : its.length = 2
    · simp [hits, h]
    · simp [hits]
  have hout2 : its.length = 2 →
      CommitInstruction.outputTypes ⟨vv, ops, d⟩ pg its
        = .error (operandArityError ⟨vv, ops, d⟩) := by
    intro hits
    unfold CommitInstruction.outputTypes
    simp [hits, h]
  refine ⟨?_, ?_, hout1, hout2, ?_, ?_⟩ <;>
    rcases ops with _ | ⟨a, _ | ⟨b, _ | ⟨c, t⟩⟩⟩ <;>
      first
        | rfl
        | simp at h

/-- Witness for C4: a zero-operand instruction. -/
theorem arity_violation_fails_witness :
    (CommitInstruction.evaluate ⟨.b256, [], .locator 0⟩ ⟨[], []⟩
        = (.error (operandArityError ⟨.b256, [], .locator 0⟩), ⟨[], []⟩))
  ∧ (CommitInstruction.execute ⟨.b256, [], .locator 0⟩ ⟨[], []⟩
        = (.error (operandArityError ⟨.b256, [], .locator 0⟩), ⟨[], []⟩))
  ∧ (∃ e, CommitInstruction.outputTypes ⟨.b256, [], .locator 0⟩ () [] = .error e)
  ∧ (([] : List RegisterType).length = 2 →
      CommitInstruction.outputTypes ⟨.b256, [], .locator 0⟩ () []
        = .error (operandArityError ⟨.b256, [], .locator 0⟩))
  ∧ (CommitInstruction.writeLE ⟨.b256, [], .locator 0⟩
        = .error ("The number of operands must be 2, found "
            ++ natToDecStr ([] : List Operand).length))
  ∧ (CommitInstruction.fmt ⟨.b256, [], .locator 0⟩
        = .error ("The number of operands must be 2, found "
            ++ natToDecStr ([] : List Operand).length)) :=
  arity_violation_fails ⟨.b256, [], .locator 0⟩ ⟨[], []⟩ () [] (by decide)

/-! ## The signing routine (C3, C8, C10) -/

/-- C3: for a message within the size bound and a sampled nonce, `sign`
hashes exactly the x-coordinates of `(nonce * G, pk_sig, pr_sig, address)`
followed by the message into the challenge, blinds the signing scalar into
`response = nonce - challenge * sk_sig`, and returns
`(challenge, response, compute_key)`. -/
theorem sign_builds_schnorr_triple (net : Network) (pk : PrivateKey) (message : List Nat)
    (x : Nat) (rest : List Nat) (ck : ComputeKey) (addr : Point) (c : Nat)
    (hlen : message.length ≤ net.maxDataSizeInFields)
    (hck : net.computeKeyFromPrivate pk = .ok ck)
    (haddr : net.addressFromComputeKey ck = .ok addr)
    (hc : net.hashToScalarPsd8
        ([(net.gScalarMultiply (x % net.scalarModulus)).x, ck.pk_sig.x, ck.pr_sig.x, addr.x]
          ++ message) = .ok c) :
    Signature.sign net pk message (x :: rest)
      = (.ok ⟨c, scalarSub net (x % net.scalarModulus) (c * pk.sk_sig), ck⟩, rest) := by
  have hc2 : net.hashToScalarPsd8
      ((net.gScalarMultiply (x % net.scalarModulus)).x :: ck.pk_sig.x :: ck.pr_sig.x
        :: addr.x :: message) = .ok c := hc
  unfold Signature.sign
  rw [if_neg (by omega)]
  simp [randScalar, hck, haddr, hc2]

/-- Witness for C3: a fully concrete signing call over the sample network. -/
theorem sign_builds_schnorr_triple_witness :
    Signature.sign sampleNetwork ⟨5⟩ [7, 9] [3, 11]
      = (.ok ⟨54, 24, ⟨⟨8, 0⟩, ⟨9, 0⟩⟩⟩, [11]) :=
  sign_builds_schnorr_triple sampleNetwork ⟨5⟩ [7, 9] 3 [11] ⟨⟨8, 0⟩, ⟨9, 0⟩⟩ ⟨17, 0⟩ 54
    (by decide) rfl rfl rfl

/-- C8: an oversized message is rejected with the size error before any
randomness is drawn — the entropy stream comes back untouched. -/
theorem oversize_rejected_before_sampling (net : Network) (pk : PrivateKey)
    (message rng : List Nat) (h : net.maxDataSizeInFields < message.length) :
    Signature.sign net pk message rng
      = (.error "Cannot sign the message: the message exceeds maximum allowed size", rng) := by
  unfold Signature.sign
  rw [if_pos h]

/-- Witness for C8: a three-element message against the bound of two. -/
theorem oversize_rejected_before_sampling_witness :
    Signature.sign sampleNetwork ⟨1⟩ [1, 2, 3] [5]
      = (.error "Cannot sign the message: the message exceeds maximum allowed size", [5]) :=
  oversize_rejected_before_sampling sampleNetwork ⟨1⟩ [1, 2, 3] [5] (by decide)

/-- C10: a message of exactly the maximum length passes the size check, so
the nonce is sampled (the stream advances) and signing completes. -/
theorem boundary_length_accepted (net : Network) (pk : PrivateKey) (message : List Nat)
    (x : Nat) (rest : List Nat) (ck : ComputeKey) (addr : Point) (c : Nat)
    (hlen : message.length = net.maxDataSizeInFields)
    (hck : net.computeKeyFromPrivate pk = .ok ck)
    (haddr : net.addressFromComputeKey ck = .ok addr)
    (hc : net.hashToScalarPsd8
        ([(net.gScalarMultiply (x % net.scalarModulus)).x, ck.pk_sig.x, ck.pr_sig.x, addr.x]
          ++ message) = .ok c) :
    ∃ sig, Signature.sign net pk message (x :: rest) = (.ok sig, rest) := by
  have hc2 : net.hashToScalarPsd8
      ((net.gScalarMultiply (x % net.scalarModulus)).x :: ck.pk_sig.x :: ck.pr_sig.x
        :: addr.x :: message) = .ok c := hc
  refine ⟨⟨c, scalarSub net (x % net.scalarModulus) (c * pk.sk_sig), ck⟩, ?_⟩
  unfold Signature.sign
  rw [if_neg (by omega)]
  simp [randScalar, hck, haddr, hc2]

/-- Witness for C10: a message of exactly the sample bound of two. -/
theorem boundary_length_accepted_witness :
    ∃ sig, Signature.sign sampleNetwork ⟨6⟩ [8, 10] [4, 12] = (.ok sig, [12]) :=
  boundary_length_accepted sampleNetwork ⟨6⟩ [8, 10] 4 [12] ⟨⟨9, 0⟩, ⟨10, 0⟩⟩ ⟨19, 0⟩ 61
    (by decide) rfl rfl rfl

/-! ## Poseidon construction (C9) -/

/-- C9: whenever a default parameter set exists (with the shape the spec's
data model gives it), the constructed sponge has a round-constant matrix of
exactly `(full_rounds + partial_rounds) × (RATE + 1)` and a mixing matrix of
exactly `(RATE + 1) × (RATE + 1)`. -/
theorem poseidon_new_dimensions (RATE : Nat) (p : PoseidonParameters)
    (hark : p.full_rounds + p.partial_rounds ≤ p.ark.length)
    (harkrow : ∀ row ∈ p.ark, RATE + 1 ≤ row.length)
    (hmds : RATE + 1 ≤ p.mds.length)
    (hmdsrow : ∀ row ∈ p.mds, RATE + 1 ≤ row.length) :
    ∃ s, Poseidon.new RATE (some p) = some s
      ∧ s.full_rounds = p.full_rounds
      ∧ s.partial_rounds = p.partial_rounds
      ∧ s.ark.length = p.full_rounds + p.partial_rounds
      ∧ (∀ row ∈ s.ark, row.length = RATE + 1)
      ∧ s.mds.length = RATE + 1
      ∧ (∀ row ∈ s.mds, row.length = RATE + 1) := by
  refine ⟨_, rfl, rfl, rfl, ?_, ?_, ?_, ?_⟩
  · simp only [Poseidon.new, List.length_map, List.length_take]
    omega
  · intro row hrow
    simp only [Poseidon.new, List.mem_map] at hrow
    obtain ⟨r0, hr0, rfl⟩ := hrow
    have hm : r0 ∈ p.ark := List.take_subset _ _ hr0
    have hlen2 := harkrow r0 hm
    simp only [List.length_take]
    omega
  · simp only [Poseidon.new, List.length_map, List.length_take]
    omega
  · intro row hrow
    simp only [Poseidon.new, List.mem_map] at hrow
    obtain ⟨r0, hr0, rfl⟩ := hrow
    have hm : r0 ∈ p.mds := List.take_subset _ _ hr0
    have hlen2 := hmdsrow r0 hm
    simp only [List.length_take]
    omega

/-! ## Round-trips (C2): decimal rendering -/

/-- Character facts about the ten digit characters, settled by evaluation. -/
theorem digit_char_props : ∀ d, d < 10 →
    (digitChar d).toNat = 48 + d ∧ isDigitCh (digitChar d) = true
      ∧ (digitChar d).isWhitespace = false ∧ digitChar d ≠ 'r'
      ∧ digitVal (digitChar d) = d := by
  decide

/-- Every character produced by the decimal digit generator is a digit. -/
theorem natToDecAux_digits : ∀ (fuel n : Nat), ∀ c ∈ natToDecAux fuel n, isDigitCh c = true := by
  intro fuel
  induction fuel with
  | zero => intro n c hc; simp [natToDecAux] at hc
  | succ f ih =>
    intro n c hc
    by_cases h : n = 0
    · simp [natToDecAux, h] at hc
    · simp only [natToDecAux, if_neg h, List.mem_cons] at hc
      rcases hc with rfl | hc
      · exact (digit_char_props _ (Nat.mod_lt _ (by decide))).2.1
      · exact ih _ c hc

/-- With enough fuel, the little-endian digit string evaluates back to the
number it was generated from. -/
theorem valLE_natToDecAux : ∀ (fuel n : Nat), n ≤ fuel → valLE (natToDecAux fuel n) = n := by
  intro fuel
  induction fuel with
  | zero =>
    intro n h
    have h0 : n = 0 := by omega
    subst h0
    rfl
  | succ f ih =>
    intro n h
    by_cases h0 : n = 0
    · subst h0; rfl
    · have hdiv : n / 10 ≤ f := by
        have := Nat.div_lt_self (Nat.pos_of_ne_zero h0) (by decide : 1 < 10)
        omega
      simp only [natToDecAux, if_neg h0, valLE, ih (n / 10) hdiv]
      have := (digit_char_props (n % 10) (Nat.mod_lt _ (by decide))).2.2.2.2
      omega

/-- Folding a digit string after appending one digit. -/
theorem digitsToNat_append_one (xs : List Char) (c : Char) :
    digitsToNat (xs ++ [c]) = 10 * digitsToNat xs + digitVal c := by
  simp [digitsToNat, List.foldl_append]

/-- The big-endian fold of a reversed digit string is its little-endian value. -/
theorem digitsToNat_reverse (l : List Char) : digitsToNat l.reverse = valLE l := by
  induction l with
  | nil => rfl
  | cons c t ih =>
    simp only [List.reverse_cons, digitsToNat_append_one, ih, valLE]
    omega

/-- Parsing the decimal rendering of `n` returns `n`. -/
theorem digitsToNat_natToDecChars (n : Nat) : digitsToNat (natToDecChars n) = n := by
  unfold natToDecChars
  by_cases h : n = 0
  · subst h; decide
  · simp only [if_neg h, digitsToNat_reverse, valLE_natToDecAux n n le_rfl]

/-- Every character of the decimal rendering is a digit. -/
theorem natToDecChars_digits (n : Nat) : ∀ c ∈ natToDecChars n, isDigitCh c = true := by
  unfold natToDecChars
  by_cases h : n = 0
  · subst h; decide
  · simp only [if_neg h, List.mem_reverse]
    exact natToDecAux_digits n n

/-- The decimal rendering is never empty. -/
theorem natToDecChars_ne_nil (n : Nat) : natToDecChars n ≠ [] := by
  unfold natToDecChars
  by_cases h : n = 0
  · subst h; simp
  · simp only [if_neg h, ne_eq, List.reverse_eq_nil_iff]
    cases n with
    | zero => exact absurd rfl h
    | succ f => simp [natToDecAux]

/-- The decimal rendering decomposes as a digit head and a tail. -/
theorem natToDecChars_head (n : Nat) :
    ∃ c t, natToDecChars n = c :: t ∧ isDigitCh c = true := by
  cases hx : natToDecChars n with
  | nil => exact absurd hx (natToDecChars_ne_nil n)
  | cons c t =>
    refine ⟨c, t, rfl, natToDecChars_digits n c ?_⟩
    rw [hx]
    exact List.mem_cons_self c t

/-- A digit character is not whitespace. -/
theorem digit_not_ws (c : Char) (h : isDigitCh c = true) : c.isWhitespace = false := by
  cases hw : c.isWhitespace with
  | false => rfl
  | true =>
    have hw2 := hw
    simp only [Char.isWhitespace, Bool.or_eq_true, decide_eq_true_eq] at hw2
    rcases hw2 with ((rfl | rfl) | rfl) | rfl <;> exact absurd h (by decide)

/-- A digit character is not the register sigil. -/
theorem digit_ne_r (c : Char) (h : isDigitCh c = true) : ¬ c = 'r' := by
  intro hc
  subst hc
  exact absurd h (by decide)

/-- Taking and dropping digits from a digit block followed by a non-digit
remainder splits exactly at the block boundary. -/
theorem span_digits (D r : List Char) (hD : ∀ c ∈ D, isDigitCh c = true)
    (hr : headNotDigit r) :
    (D ++ r).takeWhile isDigitCh = D ∧ (D ++ r).dropWhile isDigitCh = r := by
  induction D with
  | nil =>
    cases r with
    | nil => exact ⟨rfl, rfl⟩
    | cons c t =>
      have hc : isDigitCh c = false := hr
      simp [List.takeWhile_cons, List.dropWhile_cons, hc]
  | cons c D ih =>
    have hc := hD c (List.mem_cons_self c D)
    have ih2 := ih (fun x hx => hD x (List.mem_cons_of_mem c hx))
    simp [List.takeWhile_cons, List.dropWhile_cons, hc, ih2.1, ih2.2]

/-- Parsing digits off a rendered number followed by a non-digit remainder
returns the number and the remainder. -/
theorem pDigits_render (n : Nat) (r : List Char) (hr : headNotDigit r) :
    pDigits (natToDecChars n ++ r) = some (n, r) := by
  have hspan := span_digits (natToDecChars n) r (natToDecChars_digits n) hr
  obtain ⟨c, t, hct, _⟩ := natToDecChars_head n
  unfold pDigits
  rw [hspan.1, hspan.2, hct]
  show some (digitsToNat (c :: t), r) = some (n, r)
  rw [← hct, digitsToNat_natToDecChars]

/-- Matching a tag against itself consumes exactly the tag. -/
theorem pTag_self (p r : List Char) : pTag p (p ++ r) = some r := by
  induction p with
  | nil => rfl
  | cons c t ih => simp [pTag, ih]

/-- Whitespace skipping is the identity when nothing leads with whitespace. -/
theorem pWs_id (l : List Char) (h : headNotWs l) : pWs l = l := by
  cases l with
  | nil => rfl
  | cons c t =>
    have hc : c.isWhitespace = false := h
    simp [pWs, hc]

/-- Whitespace skipping over a single space stops at the next token. -/
theorem pWs_space (l : List Char) (h : headNotWs l) : pWs (' ' :: l) = l := by
  have h1 : (' ' : Char).isWhitespace = true := by decide
  simp [pWs, h1, pWs_id l h]

/-- Parsing a rendered register followed by a non-digit remainder returns
the register and the remainder. -/
theorem pRegister_render (reg : Register) (r : List Char) (hr : headNotDigit r) :
    pRegister (reg.render ++ r) = some (reg, r) := by
  cases reg with
  | locator n =>
    show pRegister ('r' :: (natToDecChars n ++ r)) = some (.locator n, r)
    simp [pRegister, pDigits_render n r hr]

/-- A rendered register never parses as a digit block. -/
theorem pRegister_fails_on_digit (s : List Char) (c : Char) (t : List Char)
    (hs : s = c :: t) (hd : isDigitCh c = true) : pRegister s = none := by
  subst hs
  simp [pRegister, digit_ne_r c hd]

/-- Parsing a rendered operand followed by a non-digit remainder returns the
operand and the remainder. -/
theorem pOperand_render (o : Operand) (r : List Char) (hr : headNotDigit r) :
    pOperand (o.render ++ r) = some (o, r) := by
  cases o with
  | register reg =>
    unfold pOperand
    simp only [Operand.render]
    rw [pRegister_render reg r hr]
  | literal n =>
    obtain ⟨c, t, hct, hd⟩ := natToDecChars_head n
    have hreg : pRegister ((natToDecChars n ++ "field".data) ++ r) = none := by
      refine pRegister_fails_on_digit _ c (t ++ "field".data ++ r) ?_ hd
      rw [hct]
      simp
    have hfield : headNotDigit ("field".data ++ r) :=
      show isDigitCh 'f' = false by decide
    unfold pOperand
    simp only [Operand.render]
    rw [hreg, List.append_assoc, pDigits_render n ("field".data ++ r) hfield]
    simp
    exact pTag_self "field".data r

/-- The head of a rendered operand (with anything appended) is never
whitespace. -/
theorem operand_render_headNotWs (o : Operand) (rest : List Char) :
    headNotWs (o.render ++ rest) := by
  cases o with
  | register reg =>
    cases reg with
    | locator n =>
      exact show ('r' : Char).isWhitespace = false by decide
  | literal n =>
    obtain ⟨c, t, hct, hd⟩ := natToDecChars_head n
    show headNotWs ((natToDecChars n ++ "field".data) ++ rest)
    rw [hct]
    exact digit_not_ws c hd

/-- The head of a rendered register is never whitespace. -/
theorem register_render_headNotWs (d : Register) : headNotWs d.render := by
  cases d with
  | locator n => exact show ('r' : Char).isWhitespace = false by decide

/-- Build a head-not-whitespace fact from the head character. -/
theorem headNotWs_cons (c : Char) (l : List Char) (h : c.isWhitespace = false) :
    headNotWs (c :: l) := h

/-- Build a head-not-digit fact from the head character. -/
theorem headNotDigit_cons (c : Char) (l : List Char) (h : isDigitCh c = false) :
    headNotDigit (c :: l) := h

/-- Parsing the rendered form of a two-operand commit instruction consumes
the whole string and rebuilds the instruction. -/
theorem parse_render (vv : BHPVariant) (o1 o2 : Operand) (d : Register) :
    CommitInstruction.parse vv
        (vv.opcodeString.data ++ ' ' :: (o1.render ++ ' ' :: (o2.render
          ++ ' ' :: ("into".data ++ ' ' :: d.render))))
      = some (⟨vv, [o1, o2], d⟩, []) := by
  have hreg : pRegister d.render = some (d, []) := by
    have h0 := pRegister_render d [] trivial
    rwa [List.append_nil] at h0
  simp only [CommitInstruction.parse,
    pTag_self,
    Option.some_bind, Option.map_some',
    pWs_space (o1.render ++ ' ' :: (o2.render ++ ' ' :: ("into".data ++ ' ' :: d.render)))
      (operand_render_headNotWs o1 _),
    pOperand_render o1 (' ' :: (o2.render ++ ' ' :: ("into".data ++ ' ' :: d.render)))
      (headNotDigit_cons ' ' _ (by decide)),
    pWs_space (o2.render ++ ' ' :: ("into".data ++ ' ' :: d.render))
      (operand_render_headNotWs o2 _),
    pOperand_render o2 (' ' :: ("into".data ++ ' ' :: d.render))
      (headNotDigit_cons ' ' _ (by decide)),
    pWs_space ("into".data ++ ' ' :: d.render)
      (headNotWs_cons 'i' _ (by decide)),
    pWs_space d.render (register_render_headNotWs d),
    hreg]

/-! ## Round-trips (C2): binary encoding -/

/-- Reading back `k` little-endian bytes of a `k`-byte-bounded number
returns the number and leaves the rest of the stream. -/
theorem readLeNat_leBytes (k : Nat) : ∀ (n : Nat) (rest : List Nat), n < 256 ^ k →
    readLeNat k (leBytes k n ++ rest) = some (n, rest) := by
  induction k with
  | zero =>
    intro n rest h
    rw [pow_zero] at h
    have hn : n = 0 := by omega
    subst hn
    rfl
  | succ k ih =>
    intro n rest h
    have hb : n / 256 < 256 ^ k := by
      rw [pow_succ] at h
      omega
    show readLeNat (k + 1) ((n % 256) :: (leBytes k (n / 256) ++ rest)) = some (n, rest)
    simp only [readLeNat, ih (n / 256) rest hb, Option.map_some']
    have hmod : n % 256 + 256 * (n / 256) = n := by omega
    rw [hmod]

/-- A register's binary encoding reads back as the register. -/
theorem register_read_write (reg : Register) (rest : List Nat) (h : reg.valid) :
    Register.readLE (reg.writeLE ++ rest) = some (reg, rest) := by
  cases reg with
  | locator n =>
    have hb : n < 256 ^ 8 := by
      rw [show (256 : Nat) ^ 8 = 2 ^ 64 by norm_num]
      exact h
    simp [Register.writeLE, Register.readLE, readLeNat_leBytes 8 n rest hb]

/-- An operand's binary encoding reads back as the operand. -/
theorem operand_read_write (o : Operand) (rest : List Nat) (h : o.valid) :
    Operand.readLE (o.writeLE ++ rest) = some (o, rest) := by
  cases o with
  | register reg =>
    show Operand.readLE (0 :: (reg.writeLE ++ rest)) = some (.register reg, rest)
    simp [Operand.readLE, register_read_write reg rest h]
  | literal n =>
    have hb : n < 256 ^ 32 := by
      rw [show (256 : Nat) ^ 32 = 2 ^ 256 by norm_num]
      exact h
    show Operand.readLE (1 :: (leBytes 32 n ++ rest)) = some (.literal n, rest)
    simp [Operand.readLE, readLeNat_leBytes 32 n rest hb]

/-- C2: a commit instruction with exactly two operands survives the
display/parse round-trip and the serialize/deserialize round-trip. -/
theorem instruction_roundtrip (i : CommitInstruction) (o1 o2 : Operand)
    (hops : i.operands = [o1, o2]) (h1 : o1.valid) (h2 : o2.valid)
    (hd : i.destination.valid) :
    (∃ s, i.fmt = .ok s ∧ CommitInstruction.fromStr i.variant s = .ok i)
  ∧ (∃ bs, i.writeLE = .ok bs ∧ CommitInstruction.readLE i.variant bs = some (i, [])) := by
  obtain ⟨vv, ops, d⟩ := i
  have hops2 : ops = [o1, o2] := hops
  subst hops2
  constructor
  · refine ⟨_, rfl, ?_⟩
    unfold CommitInstruction.fromStr
    have hdata : (String.mk (vv.opcodeString.data ++ ' ' :: o1.render ++ ' ' :: o2.render
        ++ ' ' :: "into ".data ++ d.render)).data
        = vv.opcodeString.data ++ ' ' :: (o1.render ++ ' ' :: (o2.render
          ++ ' ' :: ("into".data ++ ' ' :: d.render))) := by
      show vv.opcodeString.data ++ ' ' :: o1.render ++ ' ' :: o2.render
          ++ ' ' :: "into ".data ++ d.render
        = vv.opcodeString.data ++ ' ' :: (o1.render ++ ' ' :: (o2.render
          ++ ' ' :: ("into".data ++ ' ' :: d.render)))
      have hinto : ("into ".data : List Char) = "into".data ++ [' '] := rfl
      simp [hinto, List.append_assoc]
    rw [hdata, parse_render]
  · refine ⟨_, rfl, ?_⟩
    have hregread : Register.readLE d.writeLE = some (d, []) := by
      have h0 := register_read_write d [] hd
      rwa [List.append_nil] at h0
    show CommitInstruction.readLE vv (o1.writeLE ++ o2.writeLE ++ d.writeLE)
      = some (⟨vv, [o1, o2], d⟩, [])
    rw [List.append_assoc]
    simp only [CommitInstruction.readLE,
      operand_read_write o1 (o2.writeLE ++ d.writeLE) h1, Option.some_bind,
      operand_read_write o2 d.writeLE h2, hregread, Option.map_some']

/-- Witness for C2: the instruction `commit.bhp256 r0 5field into r2`. -/
theorem instruction_roundtrip_witness :
    (∃ s, CommitInstruction.fmt ⟨.b256, [.register (.locator 0), .literal 5], .locator 2⟩
        = .ok s
      ∧ CommitInstruction.fromStr BHPVariant.b256 s
          = .ok ⟨.b256, [.register (.locator 0), .literal 5], .locator 2⟩)
  ∧ (∃ bs, CommitInstruction.writeLE ⟨.b256, [.register (.locator 0), .literal 5], .locator 2⟩
        = .ok bs
      ∧ CommitInstruction.readLE BHPVariant.b256 bs
          = some (⟨.b256, [.register (.locator 0), .literal 5], .locator 2⟩, [])) :=
  instruction_roundtrip ⟨.b256, [.register (.locator 0), .literal 5], .locator 2⟩
    (.register (.locator 0)) (.literal 5) rfl
    (show (0 : Nat) < 2 ^ 64 by norm_num) (show (5 : Nat) < 2 ^ 256 by norm_num)
    (show (2 : Nat) < 2 ^ 64 by norm_num)

/-- Witness for C9: a small concrete parameter set at rate 1. -/
theorem poseidon_new_dimensions_witness :
    ∃ s, Poseidon.new 1 (some ⟨1, 1, 3, [[0, 0], [0, 0]], [[0, 0], [0, 0]]⟩) = some s
      ∧ s.full_rounds = 1
      ∧ s.partial_rounds = 1
      ∧ s.ark.length = 1 + 1
      ∧ (∀ row ∈ s.ark, row.length = 1 + 1)
      ∧ s.mds.length = 1 + 1
      ∧ (∀ row ∈ s.mds, row.length = 1 + 1) :=
  poseidon_new_dimensions 1 ⟨1, 1, 3, [[0, 0], [0, 0]], [[0, 0], [0, 0]]⟩
    (by decide) (by decide) (by decide) (by decide)

end Snark
